import Mathlib

/-!
Verification of the ptv-graph GTFS preparation pipeline
(tools/prepare-ptv-data/main.go and the earlier extraction variant).

The definitions below are a shallow embedding of the Go source:

* the merge consumer (main's record loop with isGTFSRecordExisting),
* the record producer (the per-file goroutine in walkPTVData),
* the writer (writeOutput / writeCSV) with an explicit filesystem oracle,
* the zip extractor (Unzip from the earlier variant, with its zip-slip check,
  and the recursive inner-archive walk of extractPTVData),
* the relevant parts of Go's path handling (filepath.Clean, filepath.Join,
  strings.HasPrefix, strings.Replace with count 1).

Side-effecting Go code is modelled by explicit state passing: channel sends
become lists, log.Fatal becomes an error result, and filesystem operations
take their outcomes from explicit oracle structures.
-/

set_option maxHeartbeats 1000000

/-! ## Data model: GTFS records and the seeded output tables -/

/-- The fixed list of recognized entity-type file base names
(validGTFSFileNames in main.go). -/
def validGTFSFileNames : List String :=
  ["agency", "calendar_dates", "calendar", "routes", "stop_times", "stops", "trips", "shapes"]

/-- A GTFS record produced by walking the extracted input zip
(struct GTFSRecord in main.go). Go's field name Type is spelled Typ here. -/
structure GTFSRecord where
  Path : String
  Typ : String
  Contents : List String
deriving DecidableEq, Repr

/-- The primary key of a row: its first field. The Go code indexes with
Contents[0] and arr[0]; rows produced by csv.Reader always have at least one
field, so the default for the empty list is never exercised on real data. -/
def keyOf (row : List String) : String := row.headD ""

/-- The initial output map of main.go: each of the eight recognized entity
types is pre-seeded with its fixed header row; any other key yields Go's nil
slice, i.e. the empty table. -/
def outputData (t : String) : List (List String) :=
  if t = "agency" then
    [["agency_id", "agency_name", "agency_url", "agency_timezone", "agency_lang"]]
  else if t = "calendar_dates" then
    [["service_id", "date", "exception_type"]]
  else if t = "calendar" then
    [["service_id", "monday", "tuesday", "wednesday", "thursday", "friday", "saturday",
      "sunday", "start_date", "end_date"]]
  else if t = "routes" then
    [["route_id", "agency_id", "route_short_name", "route_long_name", "route_type",
      "route_color", "route_text_color"]]
  else if t = "stop_times" then
    [["trip_id", "arrival_time", "departure_time", "stop_id", "stop_sequence",
      "stop_headsign", "pickup_type", "drop_off_type", "shape_dist_traveled"]]
  else if t = "stops" then
    [["stop_id", "stop_name", "stop_lat", "stop_lon"]]
  else if t = "trips" then
    [["route_id", "service_id", "trip_id", "shape_id", "trip_headsign", "direction_id"]]
  else if t = "shapes" then
    [["shape_id", "shape_pt_lat", "shape_pt_lon", "shape_pt_sequence", "shape_dist_traveled"]]
  else []

/-- The fixed header row of an entity type: the single seeded row of its
initial table. -/
def gtfsHeader (t : String) : List String := (outputData t).headD []

/-! ## Merge consumer (main.go lines 53-57 and isGTFSRecordExisting) -/

/-- isGTFSRecordExisting from main.go: scans every row of the target table,
header included, comparing first fields. -/
def isGTFSRecordExisting (rec : GTFSRecord) (targetArrays : List (List String)) : Bool :=
  targetArrays.any (fun arr => keyOf rec.Contents == keyOf arr)

/-- One iteration of main's merge loop: if the record's key is not already in
its type's table the record's contents are appended, otherwise the record is
dropped. Tables of other types are untouched. -/
def mergeStep (tables : String → List (List String)) (rec : GTFSRecord) :
    String → List (List String) :=
  fun t =>
    if t = rec.Typ then
      if isGTFSRecordExisting rec (tables rec.Typ) then tables t
      else tables t ++ [rec.Contents]
    else tables t

/-- The whole merge loop of main.go: fold the merge step over the stream of
records received from the producers, starting from the seeded tables. -/
def mergeAll (recs : List GTFSRecord) (init : String → List (List String)) :
    String → List (List String) :=
  recs.foldl mergeStep init

/-- The contents of the records of one entity type, in arrival order. -/
def rowsFor (t : String) (recs : List GTFSRecord) : List (List String) :=
  (recs.filter (fun r => r.Typ == t)).map (fun r => r.Contents)

/-- Single-type view of the merge loop: the existence scan of
isGTFSRecordExisting, restated on bare rows. -/
def rowExists (rows : List (List String)) (r : List String) : Bool :=
  rows.any (fun arr => keyOf r == keyOf arr)

/-- Single-type view of the merge loop: fold rows into a table, appending a
row only when no present row (header included) shares its key. -/
def mergeRows (init : List (List String)) (rows : List (List String)) :
    List (List String) :=
  rows.foldl (fun acc r => if rowExists acc r then acc else acc ++ [r]) init

/-- Specification-side characterization of the merge: keep each row whose key
has not been seen before, in order of arrival. -/
def dedupByKey (seen : List String) : List (List String) → List (List String)
  | [] => []
  | r :: rs =>
    if keyOf r ∈ seen then dedupByKey seen rs
    else r :: dedupByKey (keyOf r :: seen) rs

/-! ## Helper lemmas about the merge -/

theorem rowExists_iff (rows : List (List String)) (r : List String) :
    rowExists rows r = true ↔ keyOf r ∈ rows.map keyOf := by
  simp only [rowExists, List.any_eq_true, beq_iff_eq, List.mem_map]
  constructor
  · rintro ⟨a, ha, he⟩
    exact ⟨a, ha, he.symm⟩
  · rintro ⟨a, ha, he⟩
    exact ⟨a, ha, he.symm⟩

theorem dedupByKey_congr (rows : List (List String)) :
    ∀ seen1 seen2 : List String, (∀ a, a ∈ seen1 ↔ a ∈ seen2) →
    dedupByKey seen1 rows = dedupByKey seen2 rows := by
  induction rows with
  | nil => intro s1 s2 _; rfl
  | cons r rs ih =>
    intro s1 s2 h
    by_cases hk : keyOf r ∈ s1
    · rw [dedupByKey, dedupByKey, if_pos hk, if_pos ((h _).mp hk)]
      exact ih s1 s2 h
    · rw [dedupByKey, dedupByKey, if_neg hk, if_neg (fun hc => hk ((h _).mpr hc))]
      refine congrArg _ (ih _ _ ?_)
      intro a
      simp only [List.mem_cons]
      exact or_congr Iff.rfl (h a)

theorem mergeRows_eq_dedup (rows : List (List String)) :
    ∀ init, mergeRows init rows = init ++ dedupByKey (init.map keyOf) rows := by
  induction rows with
  | nil => intro init; simp [mergeRows, dedupByKey]
  | cons r rs ih =>
    intro init
    show mergeRows (if rowExists init r then init else init ++ [r]) rs = _
    by_cases h : rowExists init r = true
    · rw [if_pos h, ih init, dedupByKey, if_pos ((rowExists_iff init r).mp h)]
    · have hk : keyOf r ∉ init.map keyOf := fun hc => h ((rowExists_iff init r).mpr hc)
      rw [if_neg h, ih (init ++ [r]), dedupByKey, if_neg hk, List.append_assoc]
      refine congrArg _ (congrArg _ ?_)
      rw [List.map_append]
      refine dedupByKey_congr rs _ _ ?_
      intro a
      simp [List.mem_append, List.mem_cons, or_comm]

theorem dedupByKey_first_wins (rows : List (List String)) :
    ∀ seen r, r ∈ dedupByKey seen rows →
      keyOf r ∉ seen ∧ rows.find? (fun x => keyOf x == keyOf r) = some r := by
  induction rows with
  | nil => intro seen r h; simp [dedupByKey] at h
  | cons x rs ih =>
    intro seen r h
    by_cases hx : keyOf x ∈ seen
    · rw [dedupByKey, if_pos hx] at h
      obtain ⟨hns, hf⟩ := ih seen r h
      have hne : keyOf x ≠ keyOf r := fun he => hns (he ▸ hx)
      refine ⟨hns, ?_⟩
      rw [List.find?_cons_of_neg _ (by simp [hne])]
      exact hf
    · rw [dedupByKey, if_neg hx] at h
      rcases List.mem_cons.mp h with he | hm
      · subst he
        refine ⟨hx, ?_⟩
        rw [List.find?_cons_of_pos _ (by simp)]
      · obtain ⟨hns, hf⟩ := ih _ r hm
        have hnx : keyOf r ≠ keyOf x := fun he => hns (by simp [he])
        have hns2 : keyOf r ∉ seen := fun hc => hns (by simp [hc])
        refine ⟨hns2, ?_⟩
        rw [List.find?_cons_of_neg _ (by simp [hnx.symm])]
        exact hf

theorem dedupByKey_keys (rows : List (List String)) :
    ∀ seen, ((dedupByKey seen rows).map keyOf).Nodup ∧
      ∀ k ∈ (dedupByKey seen rows).map keyOf, k ∉ seen := by
  induction rows with
  | nil => intro seen; simp [dedupByKey]
  | cons r rs ih =>
    intro seen
    by_cases hx : keyOf r ∈ seen
    · rw [dedupByKey, if_pos hx]; exact ih seen
    · rw [dedupByKey, if_neg hx]
      obtain ⟨hnd, hnotin⟩ := ih (keyOf r :: seen)
      constructor
      · rw [List.map_cons, List.nodup_cons]
        refine ⟨fun hc => ?_, hnd⟩
        exact hnotin _ hc (List.mem_cons_self _ _)
      · intro k hk
        rw [List.map_cons] at hk
        rcases List.mem_cons.mp hk with he | hm
        · exact he ▸ hx
        · intro hc
          exact hnotin k hm (List.mem_cons_of_mem _ hc)

theorem dedupByKey_mem_keys (rows : List (List String)) :
    ∀ seen k, k ∈ (dedupByKey seen rows).map keyOf ↔
      (k ∈ rows.map keyOf ∧ k ∉ seen) := by
  induction rows with
  | nil => intro seen k; simp [dedupByKey]
  | cons r rs ih =>
    intro seen k
    by_cases hx : keyOf r ∈ seen
    · rw [dedupByKey, if_pos hx, ih, List.map_cons]
      constructor
      · rintro ⟨hm, hns⟩
        exact ⟨List.mem_cons_of_mem _ hm, hns⟩
      · rintro ⟨hm, hns⟩
        rcases List.mem_cons.mp hm with he | hm2
        · exact absurd (he ▸ hx) hns
        · exact ⟨hm2, hns⟩
    · rw [dedupByKey, if_neg hx, List.map_cons, List.map_cons]
      constructor
      · intro hm
        rcases List.mem_cons.mp hm with he | hm2
        · subst he
          exact ⟨List.mem_cons_self _ _, hx⟩
        · obtain ⟨h1, h2⟩ := (ih _ k).mp hm2
          exact ⟨List.mem_cons_of_mem _ h1, fun hc => h2 (List.mem_cons_of_mem _ hc)⟩
      · rintro ⟨hm, hns⟩
        by_cases hk : k = keyOf r
        · exact List.mem_cons.mpr (Or.inl hk)
        · rcases List.mem_cons.mp hm with he | hm2
          · exact absurd he hk
          · have hnc : k ∉ keyOf r :: seen := fun hc => (List.mem_cons.mp hc).elim hk hns
            exact List.mem_cons_of_mem _ ((ih _ k).mpr ⟨hm2, hnc⟩)

theorem mergeStep_apply (tables : String → List (List String)) (rec : GTFSRecord)
    (t : String) :
    mergeStep tables rec t =
      if t = rec.Typ then
        (if rowExists (tables t) rec.Contents then tables t
         else tables t ++ [rec.Contents])
      else tables t := by
  by_cases h : t = rec.Typ
  · subst h; rfl
  · simp [mergeStep, h]

theorem rowsFor_cons (t : String) (r : GTFSRecord) (recs : List GTFSRecord) :
    rowsFor t (r :: recs) =
      if r.Typ = t then r.Contents :: rowsFor t recs else rowsFor t recs := by
  simp only [rowsFor, List.filter_cons]
  by_cases h : r.Typ = t
  · simp [h]
  · simp [h]

theorem mergeAll_eq_mergeRows (recs : List GTFSRecord) :
    ∀ init t, mergeAll recs init t = mergeRows (init t) (rowsFor t recs) := by
  induction recs with
  | nil => intro init t; rfl
  | cons r rs ih =>
    intro init t
    show mergeAll rs (mergeStep init r) t = _
    rw [ih (mergeStep init r) t, rowsFor_cons]
    by_cases h : r.Typ = t
    · rw [if_pos h]
      show mergeRows (mergeStep init r t) _ = mergeRows _ _
      rw [mergeStep_apply, if_pos h.symm]
      subst h
      rfl
    · rw [if_neg h]
      rw [mergeStep_apply, if_neg (fun hc => h hc.symm)]

theorem outputData_valid (t : String) (ht : t ∈ validGTFSFileNames) :
    outputData t = [gtfsHeader t] := by
  fin_cases ht <;> rfl

/-- The post-header key-set of the merged table, as plain membership. -/
theorem mergeRows_mem_keys (init rows : List (List String)) (k : String) :
    k ∈ (mergeRows init rows).map keyOf ↔
      k ∈ init.map keyOf ∨ k ∈ rows.map keyOf := by
  rw [mergeRows_eq_dedup, List.map_append, List.mem_append, dedupByKey_mem_keys]
  constructor
  · rintro (h | ⟨h, _⟩)
    · exact Or.inl h
    · exact Or.inr h
  · rintro (h | h)
    · exact Or.inl h
    · by_cases hi : k ∈ init.map keyOf
      · exact Or.inl hi
      · exact Or.inr ⟨h, hi⟩

/-! ## Claim C1: merge deduplication -/

/-- C1 counterexample: the claim says the duplicate scan excludes the seeded
header row, so a record whose first field happens to equal the header's first
field name ("stop_id") would be appended to a table that holds only its
header. The code's isGTFSRecordExisting scans the header as well, so the
record is dropped: the final stops table is just the header, even though no
post-header row shares the record's key. -/
theorem c1_merge_dedup_counterexample :
    mergeAll [⟨"gtfs_in/1/stops.txt", "stops", ["stop_id", "X", "Y", "Z"]⟩]
        outputData "stops" =
      [["stop_id", "stop_name", "stop_lat", "stop_lon"]]
    ∧ ["stop_id", "X", "Y", "Z"] ∉
        mergeAll [⟨"gtfs_in/1/stops.txt", "stops", ["stop_id", "X", "Y", "Z"]⟩]
          outputData "stops"
    ∧ ∀ r ∈ (outputData "stops").tail, keyOf r ≠ "stop_id" := by decide

/-- C1 (amended): for every recognized entity type the merge consumer scans
all existing rows of the type's table, the seeded header row included; a
record is appended unchanged when no present row (header included) shares its
first field and dropped otherwise. Hence the final table is the header
followed by the first-arrival representative of each key distinct from the
header's first field name, its primary keys are pairwise distinct, and every
post-header row is the complete unmodified row that arrived first at the
consumer with its key. -/
theorem c1_merge_dedup_amended (recs : List GTFSRecord) (t : String)
    (ht : t ∈ validGTFSFileNames) :
    mergeAll recs outputData t =
      gtfsHeader t :: dedupByKey [keyOf (gtfsHeader t)] (rowsFor t recs)
    ∧ ((mergeAll recs outputData t).map keyOf).Nodup
    ∧ ∀ r ∈ (mergeAll recs outputData t).tail,
        keyOf r ≠ keyOf (gtfsHeader t) ∧
        (rowsFor t recs).find? (fun x => keyOf x == keyOf r) = some r := by
  have htab : mergeAll recs outputData t =
      gtfsHeader t :: dedupByKey [keyOf (gtfsHeader t)] (rowsFor t recs) := by
    rw [mergeAll_eq_mergeRows, outputData_valid t ht, mergeRows_eq_dedup]
    rfl
  refine ⟨htab, ?_, ?_⟩
  · rw [htab, List.map_cons, List.nodup_cons]
    obtain ⟨hnd, hnotin⟩ := dedupByKey_keys (rowsFor t recs) [keyOf (gtfsHeader t)]
    exact ⟨fun hc => hnotin _ hc (List.mem_singleton.mpr rfl), hnd⟩
  · intro r hr
    rw [htab] at hr
    obtain ⟨hns, hf⟩ := dedupByKey_first_wins (rowsFor t recs) _ r hr
    exact ⟨fun he => hns (List.mem_singleton.mpr he), hf⟩

/-- Witness for C1 (amended) at a concrete input: one stops record. -/
theorem c1_merge_dedup_amended_witness :
    "stops" ∈ validGTFSFileNames ∧
    (mergeAll [⟨"p", "stops", ["S1", "a", "b", "c"]⟩] outputData "stops" =
        gtfsHeader "stops" ::
          dedupByKey [keyOf (gtfsHeader "stops")]
            (rowsFor "stops" [⟨"p", "stops", ["S1", "a", "b", "c"]⟩])
      ∧ ((mergeAll [⟨"p", "stops", ["S1", "a", "b", "c"]⟩] outputData "stops").map
          keyOf).Nodup
      ∧ ∀ r ∈ (mergeAll [⟨"p", "stops", ["S1", "a", "b", "c"]⟩] outputData "stops").tail,
          keyOf r ≠ keyOf (gtfsHeader "stops") ∧
          (rowsFor "stops" [⟨"p", "stops", ["S1", "a", "b", "c"]⟩]).find?
            (fun x => keyOf x == keyOf r) = some r) :=
  ⟨by decide, c1_merge_dedup_amended [⟨"p", "stops", ["S1", "a", "b", "c"]⟩] "stops"
    (by decide)⟩

/-! ## Claim C3: header seeding invariant -/

/-- C3: for every recognized entity type and every stream of records the
merged table's first row is that type's fixed header: the table is pre-seeded
with the header and the merge loop only ever appends after it. -/
theorem c3_header_first (recs : List GTFSRecord) (t : String)
    (ht : t ∈ validGTFSFileNames) :
    (mergeAll recs outputData t).head? = some (gtfsHeader t) := by
  rw [mergeAll_eq_mergeRows, outputData_valid t ht, mergeRows_eq_dedup]
  rfl

/-- Witness for C3 at a concrete input: no records at all (zero matching
files), routes table. -/
theorem c3_header_first_witness :
    "routes" ∈ validGTFSFileNames ∧
    (mergeAll [] outputData "routes").head? = some (gtfsHeader "routes") :=
  ⟨by decide, c3_header_first [] "routes" (by decide)⟩

/-! ## Claim C6: re-run stability -/

/-- First of the two duplicate-key stops rows of the spec's scenario. -/
def recA : GTFSRecord := ⟨"gtfs_in/1/stops.txt", "stops", ["S1", "Main St", "-37.8", "144.9"]⟩

/-- Second of the two duplicate-key stops rows of the spec's scenario. -/
def recB : GTFSRecord :=
  ⟨"gtfs_in/2/stops.txt", "stops", ["S1", "Main Street", "-37.81", "144.95"]⟩

/-- C6 counterexample: two runs on the same input records, differing only in
the scheduler-dependent arrival order of two duplicate-key rows from different
files, retain different field contents for key S1, so the final tables are
not equal as sets of rows. -/
theorem c6_rerun_counterexample :
    List.Perm [recA, recB] [recB, recA]
    ∧ recA.Contents ∈ mergeAll [recA, recB] outputData "stops"
    ∧ recA.Contents ∉ mergeAll [recB, recA] outputData "stops" := by decide

/-- C6 (amended): two runs of the pipeline on the same input files receive
the same multiset of records, possibly in different arrival orders; for every
entity type the resulting tables then have identical sets of primary keys.
The retained field contents for a duplicated key are not stable across runs
(see the counterexample), which the merge-consumer section of the spec itself
concedes. -/
theorem c6_rerun_key_set (recs1 recs2 : List GTFSRecord) (h : recs1.Perm recs2)
    (t k : String) :
    k ∈ (mergeAll recs1 outputData t).map keyOf ↔
      k ∈ (mergeAll recs2 outputData t).map keyOf := by
  rw [mergeAll_eq_mergeRows, mergeAll_eq_mergeRows, mergeRows_mem_keys,
    mergeRows_mem_keys]
  have hperm : (rowsFor t recs1).Perm (rowsFor t recs2) := by
    unfold rowsFor
    exact List.Perm.map _ (List.Perm.filter _ h)
  exact or_congr Iff.rfl (hperm.map keyOf).mem_iff

/-- Witness for C6 (amended) at a concrete input: the two interleavings of
the duplicate-key scenario share the key S1. -/
theorem c6_rerun_key_set_witness :
    List.Perm [recA, recB] [recB, recA] ∧
    (("S1" ∈ (mergeAll [recA, recB] outputData "stops").map keyOf) ↔
      ("S1" ∈ (mergeAll [recB, recA] outputData "stops").map keyOf)) :=
  ⟨by decide, c6_rerun_key_set [recA, recB] [recB, recA] (by decide) "stops" "S1"⟩

/-! ## Record producer (the per-file goroutine of walkPTVData, main.go) -/

/-- fileIsGTFSFile from main.go: a file name matches when it equals one of
the recognized base names with the txt extension appended. -/
def fileIsGTFSFile (fileName : String) : Bool :=
  validGTFSFileNames.any (fun str => fileName == str ++ ".txt")

/-- Splitting a character list at every occurrence of a separator character:
the behavior of Go's strings.Split for a one-character separator. Splitting
the empty list yields one empty piece, as in Go. -/
def splitChar (sep : Char) : List Char → List (List Char)
  | [] => [[]]
  | c :: rest =>
    if c = sep then [] :: splitChar sep rest
    else
      match splitChar sep rest with
      | [] => [[c]]
      | p :: ps => (c :: p) :: ps

/-- The entity type a producer tags its records with: the file name up to the
first dot, as computed by the Go code with strings.Split on the dot and
indexing the first piece. -/
def recordTypeOf (fileName : String) : String :=
  String.mk ((splitChar '.' fileName.data).headD [])

/-- The read loop of the producer goroutine. A file is abstracted as the list
of outcomes of successive csv.Reader Read calls: either a parsed row or a
parse error; once the list is exhausted every further read reports end of
input, which breaks the loop. A parse error aborts the whole run by
log.Fatal, modelled as an error result. -/
def produceLoop (path ty : String) :
    List (Except String (List String)) → Except String (List GTFSRecord)
  | [] => Except.ok []
  | Except.error e :: _ => Except.error e
  | Except.ok row :: rest =>
    match produceLoop path ty rest with
    | Except.error e => Except.error e
    | Except.ok recs => Except.ok (⟨path, ty, row⟩ :: recs)

/-- One whole producer goroutine of walkPTVData: the first read is issued
solely to skip the header and its result, error included, is discarded; then
the read loop emits every subsequent row as a record. -/
def produceRecords (path fileName : String)
    (reads : List (Except String (List String))) : Except String (List GTFSRecord) :=
  produceLoop path (recordTypeOf fileName) (reads.drop 1)

theorem produceLoop_ok (path ty : String) (rows : List (List String)) :
    produceLoop path ty (rows.map Except.ok) =
      Except.ok (rows.map fun r => ⟨path, ty, r⟩) := by
  induction rows with
  | nil => rfl
  | cons r rs ih => simp [produceLoop, ih]

/-! ## Claim C4: record producer contract -/

/-- C4: for every matched file the producer discards exactly the first row
and emits every subsequent row, in file order, as a record whose type is the
file base name without its extension. -/
theorem c4_producer_contract (path fileName : String) (rows : List (List String))
    (h : fileIsGTFSFile fileName = true) :
    produceRecords path fileName (rows.map Except.ok) =
      Except.ok ((rows.drop 1).map fun r => ⟨path, recordTypeOf fileName, r⟩)
    ∧ recordTypeOf fileName ++ ".txt" = fileName := by
  constructor
  · cases rows with
    | nil => rfl
    | cons r rs =>
      show produceLoop path (recordTypeOf fileName) (rs.map Except.ok) = _
      rw [produceLoop_ok]
      rfl
  · have hex : ∃ s ∈ validGTFSFileNames, fileName = s ++ ".txt" := by
      simpa [fileIsGTFSFile, List.any_eq_true] using h
    obtain ⟨s, hs, he⟩ := hex
    subst he
    fin_cases hs <;> decide

/-- Witness for C4 at a concrete input: a stops file with a header row and
two data rows. -/
theorem c4_producer_contract_witness :
    fileIsGTFSFile "stops.txt" = true ∧
    (produceRecords "gtfs_in/1/stops.txt" "stops.txt"
        ([["stop_id", "stop_name", "stop_lat", "stop_lon"],
          ["S1", "Main St", "-37.8", "144.9"],
          ["S2", "High St", "-37.9", "145.0"]].map Except.ok) =
      Except.ok
        (([["stop_id", "stop_name", "stop_lat", "stop_lon"],
           ["S1", "Main St", "-37.8", "144.9"],
           ["S2", "High St", "-37.9", "145.0"]].drop 1).map
          fun r => ⟨"gtfs_in/1/stops.txt", recordTypeOf "stops.txt", r⟩)
    ∧ recordTypeOf "stops.txt" ++ ".txt" = "stops.txt") :=
  ⟨by decide,
    c4_producer_contract "gtfs_in/1/stops.txt" "stops.txt"
      [["stop_id", "stop_name", "stop_lat", "stop_lon"],
       ["S1", "Main St", "-37.8", "144.9"],
       ["S2", "High St", "-37.9", "145.0"]] (by decide)⟩

/-! ## Claim C9: files with at most one row -/

/-- C9: a matched file whose reader yields at most one outcome (an empty file
or a header-only file, even a header whose read errors) makes the producer
emit no records and no failure: the header-skipping read's result is
discarded and the next read's end of input ends the loop normally, so with no
records arriving each recognized table keeps only its seeded header. -/
theorem c9_short_file (path fileName : String)
    (reads : List (Except String (List String))) (h : reads.length ≤ 1) :
    produceRecords path fileName reads = Except.ok []
    ∧ ∀ t ∈ validGTFSFileNames, mergeAll [] outputData t = [gtfsHeader t] := by
  constructor
  · match reads with
    | [] => rfl
    | [r] => rfl
    | a :: b :: rest => simp only [List.length_cons] at h; omega
  · intro t ht
    show outputData t = _
    exact outputData_valid t ht

/-- Witness for C9 at a concrete input: a single read outcome that is itself
a parse error, as with a malformed header-only file. -/
theorem c9_short_file_witness :
    ([Except.error "parse error"] : List (Except String (List String))).length ≤ 1 ∧
    (produceRecords "gtfs_in/1/stops.txt" "stops.txt" [Except.error "parse error"] =
        Except.ok []
      ∧ ∀ t ∈ validGTFSFileNames, mergeAll [] outputData t = [gtfsHeader t]) :=
  ⟨by decide,
    c9_short_file "gtfs_in/1/stops.txt" "stops.txt" [Except.error "parse error"]
      (by decide)⟩

/-! ## Claim C8: resource discipline of the producer -/

/-- File-handle operations a producer goroutine can perform. -/
inductive FileOp where
  | opened
  | readRow
  | closed
deriving DecidableEq, Repr

/-- Handle operations of the producer's read loop, one read per iteration:
the loop ends at end of input or aborts on a parse error, and on neither path
does it close the handle. -/
def traceLoop : List (Except String (List String)) → List FileOp
  | [] => [FileOp.readRow]
  | Except.error _ :: _ => [FileOp.readRow]
  | Except.ok _ :: rest => FileOp.readRow :: traceLoop rest

/-- All file-handle operations of one producer goroutine of walkPTVData, in
program order: the os.Open call, the header-skipping read, then the loop
reads. The goroutine body contains no Close call and no defer. -/
def producerTrace (reads : List (Except String (List String))) : List FileOp :=
  FileOp.opened :: FileOp.readRow :: traceLoop (reads.drop 1)

theorem traceLoop_count_closed :
    ∀ l : List (Except String (List String)),
      (traceLoop l).count FileOp.closed = 0 := by
  intro l
  induction l with
  | nil => rfl
  | cons a rest ih =>
    cases a with
    | error e => rfl
    | ok row =>
      show (FileOp.readRow :: traceLoop rest).count FileOp.closed = 0
      simp [List.count_cons, ih]

/-- C8: the trace of a producer goroutine starts with the open of its file
and contains zero close operations: the file is never closed, on any exit
path — neither after all rows are emitted nor on a parse error — and the
code relies on process exit to release the handle, contradicting the claimed
resource discipline. -/
theorem c8_producer_never_closes (reads : List (Except String (List String))) :
    (producerTrace reads).headD FileOp.closed = FileOp.opened
    ∧ (producerTrace reads).count FileOp.closed = 0 := by
  refine ⟨rfl, ?_⟩
  simp [producerTrace, List.count_cons, traceLoop_count_closed]

/-! ## Writer (writeOutput and writeCSV of main.go) -/

/-- The temporary extraction directory of main.go. -/
def looseInputFiles : String := "./gtfs_in"

/-- The consolidated output directory of main.go. -/
def consolidatedOutputFiles : String := "./gtfs_out"

/-- Final status of the process: log.Fatal terminates it with an error,
otherwise main runs to completion. -/
inductive RunStatus where
  | fatal (msg : String)
  | completed
deriving DecidableEq, Repr

/-- Filesystem oracle for one writeCSV call: the outcome the operating system
would give to the os.Create call, to the i-th csv writer Write call, and to
the final buffered Flush. -/
structure WriteEnv where
  createErr : Option String
  rowErr : Nat → Option String
  flushErr : Option String

/-- The row loop of writeCSV: the error of the first failing Write call, if
any. -/
def writeRowsLoop (env : WriteEnv) : Nat → List (List String) → Option String
  | _, [] => none
  | i, _ :: rest =>
    match env.rowErr i with
    | some e => some e
    | none => writeRowsLoop env (i + 1) rest

/-- writeCSV from main.go: a failing os.Create is fatal, a failing Write of a
row is fatal; the deferred writer.Flush and file.Close run last and their
error results are discarded, so a flush failure leaves the status untouched. -/
def writeCSV (data : List (List String)) (path : String) (env : WriteEnv) : RunStatus :=
  match env.createErr with
  | some e => RunStatus.fatal ("Unable to create output file " ++ path ++ ": " ++ e)
  | none =>
    match writeRowsLoop env 0 data with
    | some e => RunStatus.fatal ("Unable to write row to file: " ++ e)
    | none => RunStatus.completed

/-- Filesystem oracle for writeOutput: the outcome of the MkdirAll call on
the output directory, one writeCSV oracle per entity-type file, and the
outcome of the final archiver.Archive call. -/
structure OutputEnv where
  mkdirErr : Option String
  fileEnv : String → WriteEnv
  archiveErr : Option String

/-- The per-table loop of writeOutput: one writeCSV call per entity type, the
file named after the type; the first fatal write stops the process. -/
def writeTables (env : OutputEnv) : List (String × List (List String)) → RunStatus
  | [] => RunStatus.completed
  | (k, v) :: rest =>
    match writeCSV v (consolidatedOutputFiles ++ "/" ++ k ++ ".txt") (env.fileEnv k) with
    | RunStatus.fatal m => RunStatus.fatal m
    | RunStatus.completed => writeTables env rest

/-- writeOutput from main.go followed by main's cleanup. The MkdirAll error
result is discarded; after the table loop archiver.Archive is always invoked
and its error result is discarded, so the second component (whether the
archive step ran) and the final status do not depend on env.archiveErr. When
no write was fatal, cleanup removes both temporary directories, removal
errors being merely logged, and the process terminates as successful. -/
def runWriterAndCleanup (data : List (String × List (List String)))
    (env : OutputEnv) : RunStatus × Bool × List String :=
  match writeTables env data with
  | RunStatus.fatal m => (RunStatus.fatal m, false, [])
  | RunStatus.completed =>
    (RunStatus.completed, true, [looseInputFiles, consolidatedOutputFiles])

/-! ## Claim C7: writer failure is fatal -/

/-- The oracle of a run whose only writer failure is a flush-time error. -/
def c7env : WriteEnv :=
  { createErr := none, rowErr := fun _ => none, flushErr := some "disk full" }

/-- C7 counterexample: a writer failure while completing a file — a failing
final Flush of the buffered csv writer — is not fatal: writeCSV still reports
completion, the archive step runs, cleanup deletes both temporary
directories, and the run terminates as successful. -/
theorem c7_writer_fatal_counterexample :
    c7env.flushErr = some "disk full"
    ∧ writeCSV [["S1", "Main St"]] (consolidatedOutputFiles ++ "/stops.txt") c7env =
        RunStatus.completed
    ∧ runWriterAndCleanup [("stops", [["S1", "Main St"]])]
        { mkdirErr := none, fileEnv := fun _ => c7env, archiveErr := none } =
      (RunStatus.completed, true, [looseInputFiles, consolidatedOutputFiles]) := by
  refine ⟨rfl, rfl, rfl⟩

/-- C7 (amended): a failure to create an output file and an error while
writing a row are fatal, and a fatal table write terminates the run before
the archive step and before cleanup; but the MkdirAll error on the output
directory and the flush error at file completion are discarded, so those
writer failures do not terminate the run. -/
theorem c7_writer_fatal_amended (data : List (List String)) (path : String)
    (env : WriteEnv) (e : String) :
    (env.createErr = some e →
      writeCSV data path env =
        RunStatus.fatal ("Unable to create output file " ++ path ++ ": " ++ e))
    ∧ (env.createErr = none → writeRowsLoop env 0 data = some e →
        writeCSV data path env = RunStatus.fatal ("Unable to write row to file: " ++ e))
    ∧ ∀ tables oenv m, writeTables oenv tables = RunStatus.fatal m →
        runWriterAndCleanup tables oenv = (RunStatus.fatal m, false, []) := by
  refine ⟨?_, ?_, ?_⟩
  · intro hc
    simp [writeCSV, hc]
  · intro hc hr
    simp [writeCSV, hc, hr]
  · intro tables oenv m hm
    simp [runWriterAndCleanup, hm]

/-- Witness for C7 (amended) at a concrete input: an os.Create failure. -/
theorem c7_writer_fatal_amended_witness :
    (({ createErr := some "permission denied", rowErr := fun _ => none,
        flushErr := none : WriteEnv }).createErr = some "permission denied" →
      writeCSV [["S1"]] "./gtfs_out/stops.txt"
          { createErr := some "permission denied", rowErr := fun _ => none,
            flushErr := none } =
        RunStatus.fatal
          ("Unable to create output file " ++ "./gtfs_out/stops.txt" ++ ": " ++
            "permission denied"))
    ∧ (({ createErr := some "permission denied", rowErr := fun _ => none,
          flushErr := none : WriteEnv }).createErr = none →
        writeRowsLoop
            { createErr := some "permission denied", rowErr := fun _ => none,
              flushErr := none } 0 [["S1"]] = some "permission denied" →
        writeCSV [["S1"]] "./gtfs_out/stops.txt"
            { createErr := some "permission denied", rowErr := fun _ => none,
              flushErr := none } =
          RunStatus.fatal ("Unable to write row to file: " ++ "permission denied"))
    ∧ ∀ tables oenv m, writeTables oenv tables = RunStatus.fatal m →
        runWriterAndCleanup tables oenv = (RunStatus.fatal m, false, []) :=
  c7_writer_fatal_amended [["S1"]] "./gtfs_out/stops.txt"
    { createErr := some "permission denied", rowErr := fun _ => none, flushErr := none }
    "permission denied"

/-! ## Claim C10: archiving errors are discarded -/

/-- C10: whenever the table-writing loop completes, the run proceeds through
the archiver.Archive call whatever its outcome — its error result is
discarded — then cleanup deletes both the extraction directory and the output
directory, and the run terminates as successful; a failure to create the
output archive therefore leaves no output artifact at all. -/
theorem c10_archive_error_discarded (data : List (String × List (List String)))
    (env : OutputEnv) (h : writeTables env data = RunStatus.completed) :
    ∀ aerr : Option String,
      runWriterAndCleanup data
          { mkdirErr := env.mkdirErr, fileEnv := env.fileEnv, archiveErr := aerr } =
        (RunStatus.completed, true, [looseInputFiles, consolidatedOutputFiles]) := by
  intro aerr
  have htab : writeTables
      { mkdirErr := env.mkdirErr, fileEnv := env.fileEnv, archiveErr := aerr } data =
      RunStatus.completed := by
    have : ∀ d, writeTables
        { mkdirErr := env.mkdirErr, fileEnv := env.fileEnv, archiveErr := aerr } d =
        writeTables env d := by
      intro d
      induction d with
      | nil => rfl
      | cons kv rest ih => cases kv; simp [writeTables, ih]
    rw [this]
    exact h
  simp [runWriterAndCleanup, htab]

/-- Witness for C10 at a concrete input: a successful write of the stops
table followed by a failing archive step. -/
theorem c10_archive_error_discarded_witness :
    writeTables
        { mkdirErr := none,
          fileEnv := fun _ =>
            { createErr := none, rowErr := fun _ => none, flushErr := none },
          archiveErr := none }
        [("stops", [["stop_id", "stop_name", "stop_lat", "stop_lon"]])] =
      RunStatus.completed ∧
    runWriterAndCleanup [("stops", [["stop_id", "stop_name", "stop_lat", "stop_lon"]])]
        { mkdirErr := none,
          fileEnv := fun _ =>
            { createErr := none, rowErr := fun _ => none, flushErr := none },
          archiveErr := some "unable to create gtfs_out.zip" } =
      (RunStatus.completed, true, [looseInputFiles, consolidatedOutputFiles]) :=
  ⟨rfl,
    c10_archive_error_discarded
      [("stops", [["stop_id", "stop_name", "stop_lat", "stop_lon"]])]
      { mkdirErr := none,
        fileEnv := fun _ =>
          { createErr := none, rowErr := fun _ => none, flushErr := none },
        archiveErr := none }
      rfl (some "unable to create gtfs_out.zip")⟩

/-! ## Go path handling: strings.HasPrefix, filepath.Clean, filepath.Join -/

/-- Go strings.HasPrefix, modelled byte-for-byte on the character data of the
two strings. -/
def hasPref (s pre : String) : Bool := pre.data.isPrefixOf s.data

/-- Splitting a path string at every slash, as filepath.Clean does while
scanning a Unix path; empty pieces arise from duplicate slashes and are
discarded by the cleaning fold. -/
def splitOnSlash (s : String) : List String :=
  (splitChar '/' s.data).map String.mk

/-- Slash-joined rendering of path components. -/
def joinSlash : List String → String
  | [] => ""
  | [c] => c
  | c :: c2 :: rest => c ++ "/" ++ joinSlash (c2 :: rest)

/-- One component step of Go's filepath.Clean: empty and dot components
vanish; a dotdot component pops the previous component when one is present,
is dropped at the root of a rooted path, and is kept at the start of a
relative path. -/
def cleanPush (rooted : Bool) (acc : List String) (c : String) : List String :=
  if c = "" ∨ c = "." then acc
  else if c = ".." then
    if rooted then acc.dropLast
    else
      match acc.getLast? with
      | some l => if l = ".." then acc ++ [".."] else acc.dropLast
      | none => [".."]
  else acc ++ [c]

/-- Go filepath.Clean on a Unix path: process the slash-separated components
left to right, then render; the empty relative result renders as a dot and
the empty rooted result as the root. -/
def goClean (p : String) : String :=
  let rooted := hasPref p "/"
  let comps := (splitOnSlash p).foldl (cleanPush rooted) []
  if rooted then "/" ++ joinSlash comps
  else if comps.isEmpty then "." else joinSlash comps

/-- Go filepath.Join of two elements: empty elements are dropped and the
slash-joined remainder is cleaned; joining two empty strings gives the empty
string. -/
def goJoin (a b : String) : String :=
  if a = "" ∧ b = "" then ""
  else if a = "" then goClean b
  else if b = "" then goClean a
  else goClean (a ++ "/" ++ b)

/-! ## Unzip (the zip extractor of the earlier pipeline variant) -/

/-- One archive entry as Unzip sees it, together with the outcomes the
environment would give to the per-entry system calls: opening the compressed
stream, creating the parent directory of a file entry, creating the file,
and copying its bytes. The error of the MkdirAll call for a directory entry
is discarded by the code, so no field models it. -/
structure ZipEntry where
  name : String
  isDir : Bool
  openErr : Option String
  mkdirParentErr : Option String
  createErr : Option String
  copyErr : Option String
deriving DecidableEq, Repr

/-- Result of Unzip: the accumulated filenames return value, the log of entry
paths at which a directory or file was created (the parent directories
ensured for a file entry all lie on the path between the destination and the
entry, and are not logged separately), and the error result. -/
structure UnzipResult where
  filenames : List String
  writes : List String
  err : Option String
deriving DecidableEq, Repr

/-- The entry loop of Unzip: for each entry, open it, resolve its destination
path by joining the entry name to the destination directory, reject the
entry when the cleaned destination directory plus separator is not a prefix
of the resolved path, then create a directory or write a file. Any error
returns immediately with the filenames accumulated so far. -/
def unzipLoop (dest : String) : List ZipEntry → List String → List String → UnzipResult
  | [], fns, ws => ⟨fns, ws, none⟩
  | e :: rest, fns, ws =>
    match e.openErr with
    | some m => ⟨fns, ws, some m⟩
    | none =>
      let fpath := goJoin dest e.name
      if hasPref fpath (goClean dest ++ "/") then
        if e.isDir then unzipLoop dest rest (fns ++ [fpath]) (ws ++ [fpath])
        else
          match e.mkdirParentErr with
          | some m => ⟨fns ++ [fpath], ws, some m⟩
          | none =>
            match e.createErr with
            | some m => ⟨fns ++ [fpath], ws, some m⟩
            | none =>
              match e.copyErr with
              | some m => ⟨fns ++ [fpath], ws ++ [fpath], some m⟩
              | none => unzipLoop dest rest (fns ++ [fpath]) (ws ++ [fpath])
      else ⟨fns, ws, some (fpath ++ ": illegal file path")⟩

/-- Unzip from the earlier pipeline variant, on an already opened archive. -/
def Unzip (dest : String) (entries : List ZipEntry) : UnzipResult :=
  unzipLoop dest entries [] []

/-- An entry the loop passes through without stopping: it opens, its resolved
path passes the zip-slip check, and, for a file entry, its directory
creation, file creation and byte copy all succeed. -/
def goodEntry (dest : String) (e : ZipEntry) : Prop :=
  e.openErr = none ∧ hasPref (goJoin dest e.name) (goClean dest ++ "/") = true ∧
    (e.isDir = true ∨ (e.mkdirParentErr = none ∧ e.createErr = none ∧ e.copyErr = none))

instance (dest : String) (e : ZipEntry) : Decidable (goodEntry dest e) := by
  unfold goodEntry
  infer_instance

theorem hasPref_iff (s pre : String) : hasPref s pre = true ↔ ∃ r, s = pre ++ r := by
  unfold hasPref
  rw [List.isPrefixOf_iff_prefix]
  constructor
  · rintro ⟨t, ht⟩
    refine ⟨String.mk t, String.ext ?_⟩
    rw [String.data_append]
    exact ht.symm
  · rintro ⟨r, hr⟩
    subst hr
    rw [String.data_append]
    exact List.prefix_append _ _

theorem unzipLoop_writes (dest : String) (entries : List ZipEntry) :
    ∀ fns ws, (∀ p ∈ ws, hasPref p (goClean dest ++ "/") = true) →
      ∀ p ∈ (unzipLoop dest entries fns ws).writes,
        hasPref p (goClean dest ++ "/") = true := by
  induction entries with
  | nil => intro fns ws hws p hp; exact hws p hp
  | cons e rest ih =>
    intro fns ws hws p hp
    rw [unzipLoop] at hp
    cases hoe : e.openErr with
    | some m => rw [hoe] at hp; exact hws p hp
    | none =>
      rw [hoe] at hp
      by_cases hpre : hasPref (goJoin dest e.name) (goClean dest ++ "/") = true
      · rw [if_pos hpre] at hp
        have hext : ∀ q ∈ ws ++ [goJoin dest e.name],
            hasPref q (goClean dest ++ "/") = true := by
          intro q hq
          rcases List.mem_append.mp hq with h | h
          · exact hws q h
          · rw [List.mem_singleton.mp h]
            exact hpre
        cases hdir : e.isDir with
        | true => rw [hdir] at hp; simp only [if_pos] at hp; exact ih _ _ hext p hp
        | false =>
          rw [hdir] at hp
          simp only [Bool.false_eq_true, if_false] at hp
          cases hm : e.mkdirParentErr with
          | some m => rw [hm] at hp; exact hws p hp
          | none =>
            rw [hm] at hp
            cases hc : e.createErr with
            | some m => rw [hc] at hp; exact hws p hp
            | none =>
              rw [hc] at hp
              cases hcp : e.copyErr with
              | some m => rw [hcp] at hp; exact hext p hp
              | none => rw [hcp] at hp; exact ih _ _ hext p hp
      · rw [if_neg hpre] at hp
        exact hws p hp

theorem unzipLoop_good_step (dest : String) (e : ZipEntry) (rest : List ZipEntry)
    (he : goodEntry dest e) :
    ∀ fns ws, ∃ fns2 ws2,
      unzipLoop dest (e :: rest) fns ws = unzipLoop dest rest fns2 ws2 := by
  intro fns ws
  obtain ⟨ho, hpre, hrest⟩ := he
  rw [unzipLoop, ho]
  simp only [if_pos hpre]
  rcases hrest with hdir | ⟨hm, hc, hcp⟩
  · rw [hdir]
    exact ⟨_, _, rfl⟩
  · rw [hm, hc, hcp]
    cases e.isDir
    · exact ⟨_, _, rfl⟩
    · exact ⟨_, _, rfl⟩

theorem unzipLoop_skips_good (dest : String) :
    ∀ pre : List ZipEntry, (∀ x ∈ pre, goodEntry dest x) →
    ∀ rest fns ws, ∃ fns2 ws2,
      unzipLoop dest (pre ++ rest) fns ws = unzipLoop dest rest fns2 ws2 := by
  intro pre
  induction pre with
  | nil => intro _ rest fns ws; exact ⟨fns, ws, rfl⟩
  | cons x xs ih =>
    intro hgood rest fns ws
    obtain ⟨fns1, ws1, h1⟩ :=
      unzipLoop_good_step dest x (xs ++ rest) (hgood x (List.mem_cons_self _ _)) fns ws
    obtain ⟨fns2, ws2, h2⟩ :=
      ih (fun y hy => hgood y (List.mem_cons_of_mem _ hy)) rest fns1 ws1
    exact ⟨fns2, ws2, by rw [List.cons_append, h1, h2]⟩

/-! ## Claim C2: zip-slip safety of Unzip -/

/-- C2: every path Unzip creates lies strictly inside the destination
directory — the cleaned destination followed by the path separator is a
prefix of it — so a rejected entry path, whose resolved path fails that
prefix test, is never created; and when the loop reaches an entry whose
resolved path fails the test (every earlier entry passing through), Unzip
stops with the illegal file path error. -/
theorem c2_zip_slip (dest : String) (entries : List ZipEntry) :
    (∀ p ∈ (Unzip dest entries).writes, ∃ r, p = goClean dest ++ "/" ++ r)
    ∧ (∀ e ∈ entries, hasPref (goJoin dest e.name) (goClean dest ++ "/") = false →
        goJoin dest e.name ∉ (Unzip dest entries).writes)
    ∧ ∀ pre e post, entries = pre ++ e :: post →
        (∀ x ∈ pre, goodEntry dest x) → e.openErr = none →
        hasPref (goJoin dest e.name) (goClean dest ++ "/") = false →
        (Unzip dest entries).err = some (goJoin dest e.name ++ ": illegal file path") := by
  have hw : ∀ p ∈ (Unzip dest entries).writes,
      hasPref p (goClean dest ++ "/") = true := by
    intro p hp
    exact unzipLoop_writes dest entries [] [] (by intro q hq; cases hq) p hp
  refine ⟨?_, ?_, ?_⟩
  · intro p hp
    obtain ⟨r, hr⟩ := (hasPref_iff p (goClean dest ++ "/")).mp (hw p hp)
    exact ⟨r, by rw [hr, String.append_assoc]⟩
  · intro e _ hbad hp
    rw [hw _ hp] at hbad
    exact Bool.noConfusion hbad
  · intro pre e post hsplit hgood hopen hbad
    subst hsplit
    unfold Unzip
    obtain ⟨fns2, ws2, hstep⟩ := unzipLoop_skips_good dest pre hgood (e :: post) [] []
    rw [hstep, unzipLoop, hopen]
    rw [if_neg (by rw [hbad]; exact Bool.noConfusion)]

/-- A harmless archive entry resolving inside the destination. -/
def entryGood : ZipEntry := ⟨"a.txt", false, none, none, none, none⟩

/-- A zip-slip entry: joined to the destination its dotdot component resolves
the path outside the destination directory. -/
def entryEvil : ZipEntry := ⟨"../evil.txt", false, none, none, none, none⟩

/-- Witness for C2 at a concrete input: a two-entry archive whose second
entry escapes the destination makes Unzip fail with the illegal file path
error. -/
theorem c2_zip_slip_witness :
    (∀ x ∈ [entryGood], goodEntry "./gtfs" x) ∧
    hasPref (goJoin "./gtfs" entryEvil.name) (goClean "./gtfs" ++ "/") = false ∧
    (Unzip "./gtfs" [entryGood, entryEvil]).err =
      some (goJoin "./gtfs" entryEvil.name ++ ": illegal file path") :=
  ⟨by decide, by decide,
    (c2_zip_slip "./gtfs" [entryGood, entryEvil]).2.2 [entryGood] entryEvil []
      rfl (by decide) rfl (by decide)⟩

/-! ## Recursive inner-archive extraction (extractPTVData's walk) -/

/-- Contents of a file in the unpacked tree: either an opaque plain file or a
zip archive, itself a list of entries mapping slash-separated relative paths
to file contents (directories arise implicitly from entry paths). -/
inductive FileContent where
  | plain
  | zipArchive (entries : List (String × FileContent))
deriving Repr

/-- A node of the filesystem tree: a directory with named children or a
file. -/
inductive FSNode where
  | dir (children : List (String × FSNode))
  | file (content : FileContent)
deriving Repr

/-- The child of a directory listing with the given name, if any. -/
def childNamed (children : List (String × FSNode)) (name : String) : Option FSNode :=
  match children.find? (fun c => c.fst == name) with
  | some c => some c.snd
  | none => none

/-- The node at a path below a node, components left to right. -/
def lookupT : List String → FSNode → Option FSNode
  | [], n => some n
  | c :: rest, FSNode.dir cs =>
    match childNamed cs c with
    | some n => lookupT rest n
    | none => none
  | _ :: _, FSNode.file _ => none

/-- Replace the named child of a listing, or append it when absent. -/
def setChild (children : List (String × FSNode)) (name : String) (n : FSNode) :
    List (String × FSNode) :=
  if children.any (fun c => c.fst == name) then
    children.map (fun c => if c.fst == name then (c.fst, n) else c)
  else children ++ [(name, n)]

/-- Write a file at a path below a node, creating intermediate directories as
os.MkdirAll does. Writing below an existing plain file cannot succeed on a
real filesystem; the model replaces the file by a fresh directory, a case no
theorem below exercises. -/
def insertT : List String → FileContent → FSNode → FSNode
  | [], _, n => n
  | [c], content, FSNode.dir cs => FSNode.dir (setChild cs c (FSNode.file content))
  | [c], content, FSNode.file _ => FSNode.dir (setChild [] c (FSNode.file content))
  | c :: c2 :: rest, content, n =>
    match n with
    | FSNode.dir cs =>
      FSNode.dir (setChild cs c
        (insertT (c2 :: rest) content
          (match childNamed cs c with
           | some m => m
           | none => FSNode.dir [])))
    | FSNode.file _ =>
      FSNode.dir (setChild [] c (insertT (c2 :: rest) content (FSNode.dir [])))

/-- The path components of a slash-separated string, empty pieces dropped. -/
def splitPath (s : String) : List String :=
  (splitOnSlash s).filter (fun c => c ≠ "")

/-- Unpack archive entries below a target directory path: each entry is
written at the target followed by its relative path, in entry order. This is
the effect of unarchiving into the target directory. -/
def extractInto (tgt : List String) (entries : List (String × FileContent))
    (t : FSNode) : FSNode :=
  entries.foldl (fun acc ent => insertT (tgt ++ splitPath ent.fst) ent.snd acc) t

/-- Go strings.Replace with count one: replace the leftmost occurrence of the
pattern, scanning character by character; the pattern here is never empty. -/
def replaceFirstAux (pat rep : List Char) : List Char → List Char
  | [] => []
  | c :: rest =>
    if pat.isPrefixOf (c :: rest) then rep ++ (c :: rest).drop pat.length
    else c :: replaceFirstAux pat rep rest

/-- Go strings.Replace(s, pat, rep, 1). -/
def replaceFirst (s pat rep : String) : String :=
  String.mk (replaceFirstAux pat.data rep.data s.data)

/-- The fixed inner-archive marker file name (innerZipFileName in the Go
sources). -/
def innerZipFileName : String := "google_transit.zip"

/-- Insert a name into a sorted list of names, preserving order. -/
def insertSorted (x : String) : List String → List String
  | [] => [x]
  | y :: ys => if x < y then x :: y :: ys else y :: insertSorted x ys

/-- Directory entries in lexicographic order, as filepath.Walk reads them. -/
def sortNames (l : List String) : List String := l.foldr insertSorted []

/-- Slash-joined rendering of a path from the walk root. -/
def renderPath (p : List String) : String := joinSlash p

/-- The walk of extractPTVData over the unpacked tree, as a depth-first
traversal with an explicit stack of pending paths. Visiting a path looks its
node up in the current tree: a directory pushes its children, listed and
sorted at visit time, in front of the remaining work, so later mutations of
an already listed directory are invisible while fresh listings of
not-yet-visited directories are seen — exactly filepath.Walk against a
mutating tree. A visited file named exactly like the inner-archive marker is
unpacked into the path obtained from its own path by deleting the first
occurrence of the zip suffix; a directory so named makes the Unarchive call
fail, which the walk callback turns into a fatal error; every other node is
passed over. The fuel bounds the number of visits and only runs out on trees
deeper than the fuel. -/
def walkList : Nat → FSNode → List (List String) → Except String FSNode
  | _, t, [] => Except.ok t
  | 0, _, _ :: _ => Except.error "walk ran out of fuel"
  | fuel + 1, t, p :: rest =>
    match lookupT p t with
    | none => Except.error ("Failure to access path " ++ renderPath p)
    | some n =>
      if p.getLastD "" = innerZipFileName then
        match n with
        | FSNode.file (FileContent.zipArchive es) =>
          walkList fuel
            (extractInto (splitPath (replaceFirst (renderPath p) ".zip" "")) es t) rest
        | _ => Except.error ("Unable to unzip " ++ renderPath p)
      else
        match n with
        | FSNode.dir cs =>
          walkList fuel t ((sortNames (cs.map Prod.fst)).map (fun name => p ++ [name]) ++ rest)
        | FSNode.file _ => walkList fuel t rest

/-- The inner-zip walk phase of extractPTVData: walk the extraction directory
below the tree root. -/
def extractWalk (fuel : Nat) (t : FSNode) : Except String FSNode :=
  walkList fuel t [["gtfs_in"]]

/-! ## Claim C5: inner-archive extraction -/

/-- An unpacked tree whose marker archive sits inside a directory with a zip
suffix in its own name. -/
def sibTree : FSNode :=
  FSNode.dir [("gtfs_in", FSNode.dir [("a.zip", FSNode.dir
    [("google_transit.zip",
      FSNode.file (FileContent.zipArchive [("stops.txt", FileContent.plain)]))])])]

/-- The tree the walk leaves behind on sibTree. -/
def sibResult : FSNode :=
  FSNode.dir [("gtfs_in", FSNode.dir
    [("a.zip", FSNode.dir
      [("google_transit.zip",
        FSNode.file (FileContent.zipArchive [("stops.txt", FileContent.plain)]))]),
     ("a", FSNode.dir
       [("google_transit.zip", FSNode.dir [("stops.txt", FSNode.file FileContent.plain)])])])]

/-- C5 counterexample: the claim says the marker archive at
gtfs_in/a.zip/google_transit.zip is unpacked into a sibling directory named
after itself with the marker suffix stripped, i.e. into
gtfs_in/a.zip/google_transit. The code instead deletes the first occurrence
of the zip suffix in the whole path — the one inside the parent directory
name a.zip — and unpacks into gtfs_in/a/google_transit.zip, so nothing at
all is created under the expected sibling path. -/
theorem c5_extract_counterexample :
    extractWalk 6 sibTree = Except.ok sibResult
    ∧ replaceFirst (renderPath ["gtfs_in", "a.zip", "google_transit.zip"]) ".zip" "" =
        "gtfs_in/a/google_transit.zip"
    ∧ lookupT ["gtfs_in", "a.zip", "google_transit"] sibResult = none
    ∧ lookupT ["gtfs_in", "a", "google_transit.zip", "stops.txt"] sibResult =
        some (FSNode.file FileContent.plain) :=
  ⟨rfl, rfl, rfl, rfl⟩

/-- An unpacked tree whose marker archive contains another marker archive. -/
def nestedTree : FSNode :=
  FSNode.dir [("gtfs_in", FSNode.dir
    [("google_transit.zip", FSNode.file (FileContent.zipArchive
      [("google_transit.zip", FileContent.zipArchive [("x.txt", FileContent.plain)])]))])]

/-- The tree the walk leaves behind on nestedTree: the inner marker archive
is placed as a file but never unpacked. -/
def nestedResult : FSNode :=
  FSNode.dir [("gtfs_in", FSNode.dir
    [("google_transit.zip", FSNode.file (FileContent.zipArchive
      [("google_transit.zip", FileContent.zipArchive [("x.txt", FileContent.plain)])])),
     ("google_transit", FSNode.dir
       [("google_transit.zip",
         FSNode.file (FileContent.zipArchive [("x.txt", FileContent.plain)]))])])]

/-- C5 (amended): every file the walk visits whose name is exactly the
inner-archive marker is unpacked into the path obtained by deleting the
first occurrence of the zip suffix from its full path — the sibling
directory named after itself with the suffix stripped only when no earlier
component of the path carries the suffix — and every visited file with any
other name is passed over as a leaf. Because a directory listing is taken
when its directory is visited, the directories an extraction creates are not
added to listings already taken: an archive nested inside an extracted inner
archive is deposited as a file but never itself extracted, so the recursion
does not continue to arbitrary nesting depth. -/
theorem c5_extract_amended :
    (∀ (fuel : Nat) (t : FSNode) (p : List String) (rest : List (List String))
        (es : List (String × FileContent)),
        lookupT p t = some (FSNode.file (FileContent.zipArchive es)) →
        p.getLastD "" = innerZipFileName →
        walkList (fuel + 1) t (p :: rest) =
          walkList fuel
            (extractInto (splitPath (replaceFirst (renderPath p) ".zip" "")) es t) rest)
    ∧ (∀ (fuel : Nat) (t : FSNode) (p : List String) (rest : List (List String))
        (c : FileContent),
        lookupT p t = some (FSNode.file c) →
        ¬ p.getLastD "" = innerZipFileName →
        walkList (fuel + 1) t (p :: rest) = walkList fuel t rest)
    ∧ extractWalk 4 nestedTree = Except.ok nestedResult
    ∧ lookupT ["gtfs_in", "google_transit", "google_transit.zip"] nestedResult =
        some (FSNode.file (FileContent.zipArchive [("x.txt", FileContent.plain)]))
    ∧ lookupT ["gtfs_in", "google_transit", "google_transit"] nestedResult = none := by
  refine ⟨?_, ?_, rfl, rfl, rfl⟩
  · intro fuel t p rest es hl hm
    simp only [walkList, hl, hm, if_true]
  · intro fuel t p rest c hl hm
    simp only [walkList, hl, if_neg hm]

/-- A tree holding one marker archive directly below the extraction root. -/
def wTree : FSNode :=
  FSNode.dir [("gtfs_in", FSNode.dir [("google_transit.zip",
    FSNode.file (FileContent.zipArchive [("stops.txt", FileContent.plain)]))])]

/-- Witness for C5 (amended) at a concrete input: visiting the marker file
below the root unpacks it into the sibling google_transit directory. -/
theorem c5_extract_amended_witness :
    lookupT ["gtfs_in", "google_transit.zip"] wTree =
      some (FSNode.file (FileContent.zipArchive [("stops.txt", FileContent.plain)])) ∧
    ["gtfs_in", "google_transit.zip"].getLastD "" = innerZipFileName ∧
    walkList 3 wTree [["gtfs_in", "google_transit.zip"]] =
      walkList 2
        (extractInto
          (splitPath (replaceFirst (renderPath ["gtfs_in", "google_transit.zip"]) ".zip" ""))
          [("stops.txt", FileContent.plain)] wTree) [] :=
  ⟨rfl, rfl,
    (c5_extract_amended).1 2 wTree ["gtfs_in", "google_transit.zip"] []
      [("stops.txt", FileContent.plain)] rfl rfl⟩
